import Mathlib

/-!
Verification of the job-control core of the tiny shell in `src/tsh.c`.

The development shallowly embeds the job registry (the global `jobs` array
of `struct job_t` together with the `nextjid` counter), the registry
helpers (`maxjid`, `addjob`, `deletejob`, `fgpid`, `getjobpid`,
`getjobjid`, `pid2jid`), the builtin `do_bgfg`, the foreground
synchronizer `waitfg`, and the three signal handlers (`sigchld_handler`,
`sigint_handler`, `sigtstp_handler`).  Machine integers (`pid_t`, `int`)
are modelled as `Int`; the fixed-size array `jobs[MAXJOBS]` is modelled as
a `List Job` of length `MAXJOBS`, with the C loops over slot indices
becoming structural recursion in slot order.  Observable I/O and signal
sends are collected in an explicit `Effect` list.
-/

set_option maxRecDepth 100000

namespace Tsh

/-- MAXJOBS from tsh.c: max jobs at any point in time. -/
def MAXJOBS : Nat := 16

/-- Job state UNDEF from tsh.c. -/
def UNDEF : Int := 0

/-- Job state FG (running in foreground) from tsh.c. -/
def FG : Int := 1

/-- Job state BG (running in background) from tsh.c. -/
def BG : Int := 2

/-- Job state ST (stopped) from tsh.c. -/
def ST : Int := 3

/-- errno value ECHILD (no child processes), as on Linux. -/
def ECHILD : Int := 10

/-- errno value ESRCH (no such process), as on Linux. -/
def ESRCH : Int := 3

/-- Signal number SIGINT. -/
def SIGINT : Int := 2

/-- Signal number SIGTSTP. -/
def SIGTSTP : Int := 20

/-- Signal number SIGCONT. -/
def SIGCONT : Int := 18

/-- One slot of the job table: `struct job_t` from tsh.c. -/
structure Job where
  pid : Int
  jid : Int
  state : Int
  cmdline : String
deriving DecidableEq, Repr

/-- A cleared slot, as produced by `clearjob` in tsh.c. -/
def emptyJob : Job := { pid := 0, jid := 0, state := UNDEF, cmdline := "" }

/-- The shared registry state: the `jobs` array plus the global `nextjid`. -/
structure Registry where
  jobs : List Job
  nextjid : Int
deriving DecidableEq, Repr

/-- The state after `initjobs(jobs)` with the initial `nextjid = 1`. -/
def initRegistry : Registry := { jobs := List.replicate MAXJOBS emptyJob, nextjid := 1 }

/-- maxjid from tsh.c: largest allocated job ID over all slots (0 on empties). -/
def maxjid (js : List Job) : Int :=
  js.foldl (fun m j => if j.jid > m then j.jid else m) 0

/-- Slot scan of `addjob`: replace the first free slot (pid == 0) by the new
job carrying jid `nj`; `none` when every slot is taken. -/
def addSlots (pid state nj : Int) (cmd : String) : List Job → Option (List Job)
  | [] => none
  | j :: rest =>
    if j.pid = 0 then
      some ({ pid := pid, jid := nj, state := state, cmdline := cmd } :: rest)
    else
      (addSlots pid state nj cmd rest).map (fun l => j :: l)

/-- addjob from tsh.c.  Returns the updated registry, the success flag, and
the message printed on failure ("Tried to create too many jobs").  On
success the new job gets `jid = nextjid` and `nextjid` is incremented,
wrapping to 1 when it exceeds MAXJOBS. -/
def addjob (r : Registry) (pid state : Int) (cmd : String) : Registry × Bool × Option String :=
  if pid < 1 then (r, false, none)
  else
    match addSlots pid state r.nextjid cmd r.jobs with
    | some js =>
      ({ jobs := js, nextjid := if r.nextjid + 1 > (MAXJOBS : Int) then 1 else r.nextjid + 1 },
       true, none)
    | none => (r, false, some ("Tried to create too many jobs"))

/-- Slot scan of `deletejob`: clear the first slot whose pid matches
(`clearjob`), `none` when no slot matches. -/
def deleteSlots (pid : Int) : List Job → Option (List Job)
  | [] => none
  | j :: rest =>
    if j.pid = pid then some (emptyJob :: rest)
    else (deleteSlots pid rest).map (fun l => j :: l)

/-- deletejob from tsh.c: clear the matching slot and recompute
`nextjid = maxjid(jobs) + 1` on the updated table. -/
def deletejob (r : Registry) (pid : Int) : Registry × Bool :=
  if pid < 1 then (r, false)
  else
    match deleteSlots pid r.jobs with
    | some js => ({ jobs := js, nextjid := maxjid js + 1 }, true)
    | none => (r, false)

/-- fgpid from tsh.c: pid of the first slot in state FG, 0 if none. -/
def fgpid : List Job → Int
  | [] => 0
  | j :: rest => if j.state = FG then j.pid else fgpid rest

/-- Slot scan of `getjobpid`: first slot whose pid matches. -/
def lookupPid (pid : Int) : List Job → Option Job
  | [] => none
  | j :: rest => if j.pid = pid then some j else lookupPid pid rest

/-- getjobpid from tsh.c (with its `pid < 1` guard). -/
def getjobpid (js : List Job) (pid : Int) : Option Job :=
  if pid < 1 then none else lookupPid pid js

/-- Slot scan of `getjobjid`: first slot whose jid matches. -/
def lookupJid (jid : Int) : List Job → Option Job
  | [] => none
  | j :: rest => if j.jid = jid then some j else lookupJid jid rest

/-- getjobjid from tsh.c (with its `jid < 1` guard). -/
def getjobjid (js : List Job) (jid : Int) : Option Job :=
  if jid < 1 then none else lookupJid jid js

/-- pid2jid from tsh.c: job ID of the first slot with the given pid, 0 if
none (or when `pid < 1`). -/
def pid2jid (js : List Job) (pid : Int) : Int :=
  if pid < 1 then 0
  else
    match lookupPid pid js with
    | some j => j.jid
    | none => 0

/-- Mutation `job->state = st` through a pointer obtained from
`getjobpid`: update the first slot whose pid matches. -/
def setStateByPid (pid st : Int) : List Job → List Job
  | [] => []
  | j :: rest =>
    if j.pid = pid then { j with state := st } :: rest
    else j :: setStateByPid pid st rest

/-- Mutation `job->state = st` through a pointer obtained from
`getjobjid`: update the first slot whose jid matches. -/
def setStateByJid (jid st : Int) : List Job → List Job
  | [] => []
  | j :: rest =>
    if j.jid = jid then { j with state := st } :: rest
    else j :: setStateByJid jid st rest

/-- Observable actions of the shell: printed messages, signals sent to a
process group (`Kill(-pgid, sg)`), terminal-ownership transfers
(`Tcsetpgrp` to a job's group, or back to the shell), and entry into the
foreground wait (`waitfg(pid)`). -/
inductive Effect where
  | msg (s : String)
  | signal (pgid : Int) (sg : Int)
  | tcset (pgid : Int)
  | tcsetShell
  | waitOn (pid : Int)
deriving DecidableEq, Repr

/-- C `atoi` on a digit string (the only shape on which tsh calls it). -/
def atoiL (cs : List Char) : Int :=
  cs.foldl (fun a c => a * 10 + ((c.toNat : Int) - 48)) 0

/-- Tail of `do_bgfg` after resolution, effects only: `Kill(-pid, SIGCONT)`,
then for `fg` the terminal transfer, `waitfg`, and the reclaim; for `bg`
the `[jid] (pid) cmdline` report (`Tcsetpgrp` is a no-op when `bg`). -/
def bgfgEffects (fgMode : Bool) (pid jid : Int) (cmd : String) : List Effect :=
  if fgMode then
    [Effect.signal pid SIGCONT, Effect.tcset pid, Effect.waitOn pid, Effect.tcsetShell]
  else
    [Effect.signal pid SIGCONT,
     Effect.msg (("[") ++ toString jid ++ ("] (") ++ toString pid ++ (") ") ++ cmd)]

/-- Tail of `do_bgfg` for a job resolved by job ID: set the found slot's
state to FG or BG according to the command, then emit the effects. -/
def bgfgPerformJid (r : Registry) (cmd : String) (job : Job) : Registry × List Effect :=
  ({ r with jobs := setStateByJid job.jid (if cmd == "fg" then FG else BG) r.jobs },
   bgfgEffects (cmd == "fg") job.pid job.jid job.cmdline)

/-- Tail of `do_bgfg` for a job resolved by pid: set the found slot's state
to FG or BG according to the command, then emit the effects. -/
def bgfgPerformPid (r : Registry) (cmd : String) (job : Job) : Registry × List Effect :=
  ({ r with jobs := setStateByPid job.pid (if cmd == "fg" then FG else BG) r.jobs },
   bgfgEffects (cmd == "fg") job.pid job.jid job.cmdline)

/-- The `ID[0] == '%'` branch of `do_bgfg`: check every character after the
`%` is a digit, resolve by job ID, and on success run the bg/fg tail. -/
def jidBranch (r : Registry) (cmd s : String) (digits : List Char) : Registry × List Effect :=
  if digits.all Char.isDigit then
    match getjobjid r.jobs (atoiL digits) with
    | some job => bgfgPerformJid r cmd job
    | none => (r, [Effect.msg (s ++ (": No such job"))])
  else (r, [Effect.msg (cmd ++ (": argument must be a PID or %jobid"))])

/-- The raw-pid branch of `do_bgfg`: check every character is a digit,
resolve by pid, and on success run the bg/fg tail. -/
def pidBranch (r : Registry) (cmd s : String) (cs : List Char) : Registry × List Effect :=
  if cs.all Char.isDigit then
    match getjobpid r.jobs (atoiL cs) with
    | some job => bgfgPerformPid r cmd job
    | none => (r, [Effect.msg (("(") ++ s ++ ("): No such process"))])
  else (r, [Effect.msg (cmd ++ (": argument must be a PID or %jobid"))])

/-- do_bgfg from tsh.c.  `cmd` is `argv[0]` ("bg" or "fg"), `arg` is
`argv[1]` (`none` when absent).  An argument whose first character is `%`
is resolved as a job ID, otherwise as a pid; every character of the
numeric part must be a digit or the usage error is reported and nothing
happens. -/
def do_bgfg (r : Registry) (cmd : String) (arg : Option String) : Registry × List Effect :=
  match arg with
  | none => (r, [Effect.msg (cmd ++ (" command requires PID or %jobid argument"))])
  | some s =>
    match s.data with
    | [] => pidBranch r cmd s []
    | c :: cs => if c = '%' then jidBranch r cmd s cs else pidBranch r cmd s (c :: cs)

/-- The code's own validity check on a bg/fg argument, extracted: after an
optional leading `%`, every character must be a digit (vacuously true of
the empty remainder, exactly as the C loops behave). -/
def bgfgNumericArg (s : String) : Bool :=
  match s.data with
  | [] => ([] : List Char).all Char.isDigit
  | c :: cs => if c = '%' then cs.all Char.isDigit else (c :: cs).all Char.isDigit

/-- Registry after launching sixteen background jobs with pids 1..16: the
table is full, jids are 1..16, and `nextjid` has wrapped to 1. -/
def fillReg : Registry :=
  (List.range MAXJOBS).foldl (fun r i => (addjob r ((i : Int) + 1) BG ("cmd")).1) initRegistry

/-- `fillReg` after the jobs with pids 2 and 3 exit: fourteen live jobs,
`nextjid` recomputed to 17. -/
def delReg : Registry := (deletejob (deletejob fillReg 2).1 3).1

/-- `delReg` after launching pid 17: it is assigned jid 17 and `nextjid`
wraps to 1 while a job with jid 17 is live. -/
def wrapReg : Registry := (addjob delReg 17 BG ("cmd")).1

/-- `wrapReg` after launching pid 18: it is assigned jid 1, duplicating
the live jid 1 held by pid 1. -/
def dupReg : Registry := (addjob wrapReg 18 BG ("cmd")).1

/-- `dupReg` after the job with pid 1 exits: `nextjid` is recomputed to
`maxjid + 1 = 18`, above `MAXJOBS + 1`. -/
def postDelReg : Registry := (deletejob dupReg 1).1

/-- Outcome of one child-status notification returned by
`waitpid(-1, &status, WNOHANG | WUNTRACED)`: the OS reports exactly one of
stopped (`WIFSTOPPED`), terminated by a signal (`WIFSIGNALED`), or normal
exit (`WIFEXITED`). -/
inductive ChildEvent where
  | stopped (sg : Int)
  | signaled (sg : Int)
  | exited (code : Int)
deriving DecidableEq, Repr

/-- How the `waitpid` drain loop ends: return value 0 (children exist but
none has changed state) or return value -1 with the given `errno`
(`ECHILD` when no children remain). -/
inductive WaitEnd where
  | noneReady
  | failed (e : Int)
deriving DecidableEq, Repr

/-- The stop notice printed by `sigchld_handler`. -/
def stopNotice (js : List Job) (pid sg : Int) : String :=
  ("Job [") ++ toString (pid2jid js pid) ++ ("] (") ++ toString pid ++
    (") stopped by signal ") ++ toString sg

/-- The termination-by-signal notice printed by `sigchld_handler`. -/
def termNotice (js : List Job) (pid sg : Int) : String :=
  ("Job [") ++ toString (pid2jid js pid) ++ ("] (") ++ toString pid ++
    (") terminated by signal ") ++ toString sg

/-- One iteration of the `sigchld_handler` loop body for a reported pid
(run with all signals blocked): stopped updates the job's state to ST and
prints the stop notice; terminated-by-signal deletes the job and prints
the termination notice; normal exit deletes the job silently. -/
def chldStep (r : Registry) (pid : Int) (ev : ChildEvent) : Registry × List Effect :=
  match ev with
  | ChildEvent.stopped sg =>
    ({ r with jobs := setStateByPid pid ST r.jobs }, [Effect.msg (stopNotice r.jobs pid sg)])
  | ChildEvent.signaled sg =>
    ((deletejob r pid).1, [Effect.msg (termNotice r.jobs pid sg)])
  | ChildEvent.exited _ =>
    ((deletejob r pid).1, [])

/-- Result of running a signal handler: the registry it leaves behind, its
observable effects, the value of `errno` at handler return, and whether it
took the fatal path (`Sio_error` / `unix_error`, which exit the process). -/
structure HandlerResult where
  reg : Registry
  out : List Effect
  errno : Int
  fatal : Bool
deriving DecidableEq, Repr

/-- sigchld_handler from tsh.c.  `errno0` is the ambient `errno` at handler
entry (saved into `olderrno`); `evs` are the child-status notifications the
`waitpid` loop drains, in order; `en` is how the loop ends.  A loop ending
in `-1` with `errno != ECHILD` is fatal (`Sio_error("waitpid error")`);
otherwise the handler restores `errno = olderrno` and returns. -/
def sigchld_handler (errno0 : Int) : Registry → List (Int × ChildEvent) → WaitEnd → HandlerResult
  | r, [], WaitEnd.noneReady => { reg := r, out := [], errno := errno0, fatal := false }
  | r, [], WaitEnd.failed e =>
    if e = ECHILD then { reg := r, out := [], errno := errno0, fatal := false }
    else { reg := r, out := [Effect.msg ("waitpid error")], errno := e, fatal := true }
  | r, (pid, ev) :: rest, en =>
    let p := chldStep r pid ev
    let res := sigchld_handler errno0 p.1 rest en
    { res with out := p.2 ++ res.out }

/-- Common body of `sigint_handler` and `sigtstp_handler`: save `errno`,
read the foreground pid under a full signal block, forward signal `sg` to
the foreground process group if there is one, and restore `errno`.
`killErrno` is the result of the `kill` call: `none` on success, `some e`
on failure with `errno = e` (ESRCH is reported and survived, anything else
is fatal via `unix_error`). -/
def fwdSignal (r : Registry) (errno0 sg : Int) (killErrno : Option Int) : HandlerResult :=
  let pid := fgpid r.jobs
  if pid = 0 then { reg := r, out := [], errno := errno0, fatal := false }
  else
    match killErrno with
    | none => { reg := r, out := [Effect.signal pid sg], errno := errno0, fatal := false }
    | some e =>
      if e = ESRCH then
        { reg := r,
          out := [Effect.signal pid sg,
                  Effect.msg (("(") ++ toString pid ++ ("): No such process or process group"))],
          errno := errno0, fatal := false }
      else { reg := r, out := [Effect.signal pid sg], errno := e, fatal := true }

/-- sigint_handler from tsh.c: forward SIGINT to the foreground group. -/
def sigint_handler (r : Registry) (errno0 : Int) (killErrno : Option Int) : HandlerResult :=
  fwdSignal r errno0 SIGINT killErrno

/-- sigtstp_handler from tsh.c: forward SIGTSTP to the foreground group. -/
def sigtstp_handler (r : Registry) (errno0 : Int) (killErrno : Option Int) : HandlerResult :=
  fwdSignal r errno0 SIGTSTP killErrno

/-- waitfg from tsh.c, run against a trace of SIGCHLD deliveries.  SIGCHLD
is blocked for the whole loop, so the handler can run only inside
`sigsuspend`; each list element is the registry update performed by one
delivered SIGCHLD (its `sigchld_handler` run).  The loop re-checks
`pid == fgpid(jobs)` after every delivery; `none` means the trace ran out
while the job was still foreground, i.e. the call is still blocked. -/
def waitfgRun (pid : Int) : List (Registry → Registry) → Registry → Option Registry
  | [], r => if fgpid r.jobs = pid then none else some r
  | h :: rest, r => if fgpid r.jobs = pid then waitfgRun pid rest (h r) else some r

/-- Apply a prefix of SIGCHLD deliveries in order. -/
def applyEvents : List (Registry → Registry) → Registry → Registry
  | [], r => r
  | h :: rest, r => applyEvents rest (h r)

/-- Where the shell's main flow stands: at the prompt (reading the next
command) or suspended in `waitfg(pid)` for a foreground job. -/
inductive Mode where
  | prompt
  | waiting (pid : Int)
deriving DecidableEq, Repr

/-- The whole shared state the claims quantify over: the registry plus the
main-flow position. -/
structure Shell where
  reg : Registry
  mode : Mode
deriving DecidableEq, Repr

/-- The shell right after `initjobs`, at the prompt. -/
def initShell : Shell := { reg := initRegistry, mode := Mode.prompt }

/-- The mode the main flow enters after `do_bgfg`: `fg` success paths call
`waitfg` (marked by the `waitOn` effect); every other path returns to the
prompt. -/
def bgfgMode (effs : List Effect) : Mode :=
  match effs.findSome? (fun e => match e with | Effect.waitOn p => some p | _ => none) with
  | some p => Mode.waiting p
  | none => Mode.prompt

/-- One atomic transition of the shell.  Main-flow transitions (`eval`'s
launch paths and `do_bgfg`) run from the prompt with SIGCHLD blocked for
their registry critical section; `fgDone` is `waitfg` returning once the
registry no longer reports its pid as foreground; `chld` is one reported
pid handled by `sigchld_handler` (it runs with all signals blocked, in any
mode, because `sigsuspend` and the unblocked prompt admit it).  Launched
pids are positive (`fork` results). -/
inductive Step : Shell → Shell → Prop where
  | launchBG (s : Shell) (pid : Int) (cmd : String)
      (hm : s.mode = Mode.prompt) (hp : 1 ≤ pid) :
      Step s { reg := (addjob s.reg pid BG cmd).1, mode := Mode.prompt }
  | launchFG (s : Shell) (pid : Int) (cmd : String)
      (hm : s.mode = Mode.prompt) (hp : 1 ≤ pid) :
      Step s { reg := (addjob s.reg pid FG cmd).1, mode := Mode.waiting pid }
  | bgfg (s : Shell) (cmd : String) (arg : Option String)
      (hm : s.mode = Mode.prompt) :
      Step s { reg := (do_bgfg s.reg cmd arg).1, mode := bgfgMode (do_bgfg s.reg cmd arg).2 }
  | fgDone (s : Shell) (pid : Int)
      (hm : s.mode = Mode.waiting pid) (hf : ¬ fgpid s.reg.jobs = pid) :
      Step s { reg := s.reg, mode := Mode.prompt }
  | chld (s : Shell) (pid : Int) (ev : ChildEvent) :
      Step s { reg := (chldStep s.reg pid ev).1, mode := s.mode }

/-- Registry states reachable from the initial shell. -/
inductive Reachable : Shell → Prop where
  | init : Reachable initShell
  | step {s s' : Shell} : Reachable s → Step s s' → Reachable s'

/-- Number of slots in state FG: the measure of the foreground-uniqueness
invariant. -/
def fgCount : List Job → Nat
  | [] => 0
  | j :: rest => (if j.state = FG then 1 else 0) + fgCount rest

/-- The main-flow/handler invariant: at most one slot is FG; at the prompt
no slot is FG; while `waitfg(p)` runs, any FG slot carries pid `p`. -/
def Inv (s : Shell) : Prop :=
  fgCount s.reg.jobs ≤ 1 ∧
  (s.mode = Mode.prompt → fgCount s.reg.jobs = 0) ∧
  (∀ p, s.mode = Mode.waiting p → ∀ j ∈ s.reg.jobs, j.state = FG → j.pid = p)

theorem fgCount_eq_zero_iff (js : List Job) :
    fgCount js = 0 ↔ ∀ j ∈ js, ¬ j.state = FG := by
  induction js with
  | nil => simp [fgCount]
  | cons a t ih =>
    by_cases ha : a.state = FG
    · simp [fgCount, ha]
    · simp [fgCount, ha, ih]

theorem fgpid_eq_zero (js : List Job) (h : ∀ j ∈ js, ¬ j.state = FG) :
    fgpid js = 0 := by
  induction js with
  | nil => rfl
  | cons a t ih =>
    have ha : ¬ a.state = FG := h a (List.mem_cons_self a t)
    simp only [fgpid]
    rw [if_neg ha]
    exact ih (fun j hj => h j (List.mem_cons_of_mem a hj))

theorem fgpid_eq_of_mem (js : List Job) (h1 : fgCount js ≤ 1) (j : Job)
    (hj : j ∈ js) (hfg : j.state = FG) : fgpid js = j.pid := by
  induction js with
  | nil => cases hj
  | cons a t ih =>
    by_cases ha : a.state = FG
    · have hcount : fgCount (a :: t) = 1 + fgCount t := by simp [fgCount, ha]
      have ht0 : fgCount t = 0 := by omega
      simp only [fgpid]
      rw [if_pos ha]
      rcases List.mem_cons.1 hj with rfl | hjt
      · rfl
      · exact absurd hfg ((fgCount_eq_zero_iff t).1 ht0 j hjt)
    · have hcount : fgCount (a :: t) = fgCount t := by simp [fgCount, ha]
      simp only [fgpid]
      rw [if_neg ha]
      rcases List.mem_cons.1 hj with rfl | hjt
      · exact absurd hfg ha
      · exact ih (by omega) hjt

theorem fgCount_ne_zero_exists (js : List Job) (h : ¬ fgCount js = 0) :
    ∃ j ∈ js, j.state = FG := by
  induction js with
  | nil => exact absurd rfl h
  | cons a t ih =>
    by_cases ha : a.state = FG
    · exact ⟨a, List.mem_cons_self a t, ha⟩
    · have : fgCount (a :: t) = fgCount t := by simp [fgCount, ha]
      rcases ih (by omega) with ⟨j, hj, hjfg⟩
      exact ⟨j, List.mem_cons_of_mem a hj, hjfg⟩

theorem addSlots_eq_none_of_full (pid st nj : Int) (cmd : String) (js : List Job)
    (h : ∀ j ∈ js, ¬ j.pid = 0) : addSlots pid st nj cmd js = none := by
  induction js with
  | nil => rfl
  | cons a t ih =>
    have ha : ¬ a.pid = 0 := h a (List.mem_cons_self a t)
    simp only [addSlots]
    rw [if_neg ha, ih (fun j hj => h j (List.mem_cons_of_mem a hj))]
    rfl

theorem mem_addSlots {pid st nj : Int} {cmd : String} {js js' : List Job}
    (h : addSlots pid st nj cmd js = some js') :
    ∀ x ∈ js', x ∈ js ∨ x = { pid := pid, jid := nj, state := st, cmdline := cmd } := by
  induction js generalizing js' with
  | nil => cases h
  | cons a t ih =>
    simp only [addSlots] at h
    by_cases ha : a.pid = 0
    · rw [if_pos ha] at h
      injection h with h
      subst h
      intro x hx
      rcases List.mem_cons.1 hx with rfl | hxr
      · exact Or.inr rfl
      · exact Or.inl (List.mem_cons_of_mem a hxr)
    · rw [if_neg ha] at h
      rcases Option.map_eq_some'.1 h with ⟨l, hl, rfl⟩
      intro x hx
      rcases List.mem_cons.1 hx with rfl | hxr
      · exact Or.inl (List.mem_cons_self x t)
      · rcases ih hl x hxr with hx' | hx'
        · exact Or.inl (List.mem_cons_of_mem a hx')
        · exact Or.inr hx'

theorem addSlots_mem_new {pid st nj : Int} {cmd : String} {js js' : List Job}
    (h : addSlots pid st nj cmd js = some js') :
    ({ pid := pid, jid := nj, state := st, cmdline := cmd } : Job) ∈ js' := by
  induction js generalizing js' with
  | nil => cases h
  | cons a t ih =>
    simp only [addSlots] at h
    by_cases ha : a.pid = 0
    · rw [if_pos ha] at h
      injection h with h
      subst h
      exact List.mem_cons_self _ _
    · rw [if_neg ha] at h
      rcases Option.map_eq_some'.1 h with ⟨l, hl, rfl⟩
      exact List.mem_cons_of_mem a (ih hl)

theorem fgCount_addSlots_le {pid st nj : Int} {cmd : String} {js js' : List Job}
    (h : addSlots pid st nj cmd js = some js') :
    fgCount js' ≤ fgCount js + 1 := by
  induction js generalizing js' with
  | nil => cases h
  | cons a t ih =>
    simp only [addSlots] at h
    by_cases ha : a.pid = 0
    · rw [if_pos ha] at h
      injection h with h
      subst h
      simp only [fgCount]
      by_cases hst : st = FG <;> by_cases haf : a.state = FG <;>
        simp only [show ({ pid := pid, jid := nj, state := st, cmdline := cmd } : Job).state = st
          from rfl, hst, haf, if_pos, if_neg, if_true, if_false] <;> omega
    · rw [if_neg ha] at h
      rcases Option.map_eq_some'.1 h with ⟨l, hl, rfl⟩
      have := ih hl
      simp only [fgCount]
      omega

theorem fgCount_addSlots_of_ne {pid st nj : Int} {cmd : String} {js js' : List Job}
    (hst : ¬ st = FG) (h : addSlots pid st nj cmd js = some js') :
    fgCount js' ≤ fgCount js := by
  induction js generalizing js' with
  | nil => cases h
  | cons a t ih =>
    simp only [addSlots] at h
    by_cases ha : a.pid = 0
    · rw [if_pos ha] at h
      injection h with h
      subst h
      simp only [fgCount]
      rw [if_neg hst]
      split_ifs <;> omega
    · rw [if_neg ha] at h
      rcases Option.map_eq_some'.1 h with ⟨l, hl, rfl⟩
      have := ih hl
      simp only [fgCount]
      omega

theorem mem_deleteSlots {pid : Int} {js js' : List Job}
    (h : deleteSlots pid js = some js') :
    ∀ x ∈ js', x ∈ js ∨ x = emptyJob := by
  induction js generalizing js' with
  | nil => cases h
  | cons a t ih =>
    simp only [deleteSlots] at h
    by_cases ha : a.pid = pid
    · rw [if_pos ha] at h
      injection h with h
      subst h
      intro x hx
      rcases List.mem_cons.1 hx with rfl | hxr
      · exact Or.inr rfl
      · exact Or.inl (List.mem_cons_of_mem a hxr)
    · rw [if_neg ha] at h
      rcases Option.map_eq_some'.1 h with ⟨l, hl, rfl⟩
      intro x hx
      rcases List.mem_cons.1 hx with rfl | hxr
      · exact Or.inl (List.mem_cons_self x t)
      · rcases ih hl x hxr with hx' | hx'
        · exact Or.inl (List.mem_cons_of_mem a hx')
        · exact Or.inr hx'

theorem fgCount_deleteSlots_le {pid : Int} {js js' : List Job}
    (h : deleteSlots pid js = some js') :
    fgCount js' ≤ fgCount js := by
  induction js generalizing js' with
  | nil => cases h
  | cons a t ih =>
    simp only [deleteSlots] at h
    by_cases ha : a.pid = pid
    · rw [if_pos ha] at h
      injection h with h
      subst h
      simp only [fgCount]
      rw [if_neg (show ¬ emptyJob.state = FG by decide)]
      split_ifs <;> omega
    · rw [if_neg ha] at h
      rcases Option.map_eq_some'.1 h with ⟨l, hl, rfl⟩
      have := ih hl
      simp only [fgCount]
      omega

theorem mem_setStateByPid {pid st : Int} {js : List Job} :
    ∀ x ∈ setStateByPid pid st js, x ∈ js ∨ ∃ y ∈ js, x = { y with state := st } := by
  induction js with
  | nil => intro x hx; cases hx
  | cons a t ih =>
    simp only [setStateByPid]
    by_cases ha : a.pid = pid
    · rw [if_pos ha]
      intro x hx
      rcases List.mem_cons.1 hx with rfl | hxr
      · exact Or.inr ⟨a, List.mem_cons_self a t, rfl⟩
      · exact Or.inl (List.mem_cons_of_mem a hxr)
    · rw [if_neg ha]
      intro x hx
      rcases List.mem_cons.1 hx with rfl | hxr
      · exact Or.inl (List.mem_cons_self x t)
      · rcases ih x hxr with hx' | ⟨y, hy, hxy⟩
        · exact Or.inl (List.mem_cons_of_mem a hx')
        · exact Or.inr ⟨y, List.mem_cons_of_mem a hy, hxy⟩

theorem fgCount_setStateByPid_of_ne {pid st : Int} (hst : ¬ st = FG) (js : List Job) :
    fgCount (setStateByPid pid st js) ≤ fgCount js := by
  induction js with
  | nil => simp [setStateByPid]
  | cons a t ih =>
    simp only [setStateByPid]
    by_cases ha : a.pid = pid
    · rw [if_pos ha]
      simp only [fgCount]
      rw [if_neg hst]
      split_ifs <;> omega
    · rw [if_neg ha]
      simp only [fgCount]
      omega

theorem lookupPid_spec {pid : Int} {js : List Job} {job : Job}
    (h : lookupPid pid js = some job) : job ∈ js ∧ job.pid = pid := by
  induction js with
  | nil => cases h
  | cons a t ih =>
    simp only [lookupPid] at h
    by_cases ha : a.pid = pid
    · rw [if_pos ha] at h
      injection h with h
      subst h
      exact ⟨List.mem_cons_self a t, ha⟩
    · rw [if_neg ha] at h
      rcases ih h with ⟨hm, hp⟩
      exact ⟨List.mem_cons_of_mem a hm, hp⟩

theorem lookupJid_spec {jid : Int} {js : List Job} {job : Job}
    (h : lookupJid jid js = some job) : job ∈ js ∧ job.jid = jid := by
  induction js with
  | nil => cases h
  | cons a t ih =>
    simp only [lookupJid] at h
    by_cases ha : a.jid = jid
    · rw [if_pos ha] at h
      injection h with h
      subst h
      exact ⟨List.mem_cons_self a t, ha⟩
    · rw [if_neg ha] at h
      rcases ih h with ⟨hm, hp⟩
      exact ⟨List.mem_cons_of_mem a hm, hp⟩

theorem mem_setStateByJid_of_lookup {jid st : Int} {js : List Job} {job : Job}
    (h : lookupJid jid js = some job) :
    ∀ x ∈ setStateByJid jid st js, x ∈ js ∨ x = { job with state := st } := by
  induction js with
  | nil => cases h
  | cons a t ih =>
    simp only [lookupJid] at h
    simp only [setStateByJid]
    by_cases ha : a.jid = jid
    · rw [if_pos ha] at h
      injection h with h
      subst h
      rw [if_pos ha]
      intro x hx
      rcases List.mem_cons.1 hx with rfl | hxr
      · exact Or.inr rfl
      · exact Or.inl (List.mem_cons_of_mem _ hxr)
    · rw [if_neg ha] at h
      rw [if_neg ha]
      intro x hx
      rcases List.mem_cons.1 hx with rfl | hxr
      · exact Or.inl (List.mem_cons_self x t)
      · rcases ih h x hxr with hx' | hx'
        · exact Or.inl (List.mem_cons_of_mem a hx')
        · exact Or.inr hx'

theorem mem_setStateByPid_of_lookup {pid st : Int} {js : List Job} {job : Job}
    (h : lookupPid pid js = some job) :
    ∀ x ∈ setStateByPid pid st js, x ∈ js ∨ x = { job with state := st } := by
  induction js with
  | nil => cases h
  | cons a t ih =>
    simp only [lookupPid] at h
    simp only [setStateByPid]
    by_cases ha : a.pid = pid
    · rw [if_pos ha] at h
      injection h with h
      subst h
      rw [if_pos ha]
      intro x hx
      rcases List.mem_cons.1 hx with rfl | hxr
      · exact Or.inr rfl
      · exact Or.inl (List.mem_cons_of_mem _ hxr)
    · rw [if_neg ha] at h
      rw [if_neg ha]
      intro x hx
      rcases List.mem_cons.1 hx with rfl | hxr
      · exact Or.inl (List.mem_cons_self x t)
      · rcases ih h x hxr with hx' | hx'
        · exact Or.inl (List.mem_cons_of_mem a hx')
        · exact Or.inr hx'

theorem fgCount_setStateByJid_le (jid st : Int) (js : List Job) :
    fgCount (setStateByJid jid st js) ≤ fgCount js + 1 := by
  induction js with
  | nil => simp [setStateByJid, fgCount]
  | cons a t ih =>
    simp only [setStateByJid]
    by_cases ha : a.jid = jid
    · rw [if_pos ha]
      simp only [fgCount]
      by_cases hst : st = FG <;> by_cases haf : a.state = FG <;>
        simp only [hst, haf, if_pos, if_neg, if_true, if_false] <;> omega
    · rw [if_neg ha]
      simp only [fgCount]
      omega

theorem fgCount_setStateByPid_le (pid st : Int) (js : List Job) :
    fgCount (setStateByPid pid st js) ≤ fgCount js + 1 := by
  induction js with
  | nil => simp [setStateByPid, fgCount]
  | cons a t ih =>
    simp only [setStateByPid]
    by_cases ha : a.pid = pid
    · rw [if_pos ha]
      simp only [fgCount]
      by_cases hst : st = FG <;> by_cases haf : a.state = FG <;>
        simp only [hst, haf, if_pos, if_neg, if_true, if_false] <;> omega
    · rw [if_neg ha]
      simp only [fgCount]
      omega

theorem fgCount_setStateByJid_of_ne {jid st : Int} (hst : ¬ st = FG) (js : List Job) :
    fgCount (setStateByJid jid st js) ≤ fgCount js := by
  induction js with
  | nil => simp [setStateByJid]
  | cons a t ih =>
    simp only [setStateByJid]
    by_cases ha : a.jid = jid
    · rw [if_pos ha]
      simp only [fgCount]
      rw [if_neg hst]
      split_ifs <;> omega
    · rw [if_neg ha]
      simp only [fgCount]
      omega

theorem maxjid_foldl_ge (js : List Job) (m : Int) :
    m ≤ js.foldl (fun m j => if j.jid > m then j.jid else m) m := by
  induction js generalizing m with
  | nil => simp
  | cons a t ih =>
    simp only [List.foldl_cons]
    refine le_trans ?_ (ih (if a.jid > m then a.jid else m))
    by_cases h : a.jid > m
    · rw [if_pos h]; omega
    · rw [if_neg h]

theorem jid_le_maxjid_foldl (js : List Job) (m : Int) (j : Job) (hj : j ∈ js) :
    j.jid ≤ js.foldl (fun m j => if j.jid > m then j.jid else m) m := by
  induction js generalizing m with
  | nil => cases hj
  | cons a t ih =>
    simp only [List.foldl_cons]
    rcases List.mem_cons.1 hj with rfl | hjt
    · refine le_trans ?_ (maxjid_foldl_ge t (if j.jid > m then j.jid else m))
      by_cases h : j.jid > m
      · rw [if_pos h]
      · rw [if_neg h]; omega
    · exact ih (if a.jid > m then a.jid else m) hjt

theorem maxjid_nonneg (js : List Job) : 0 ≤ maxjid js :=
  maxjid_foldl_ge js 0

theorem jid_le_maxjid {js : List Job} {j : Job} (hj : j ∈ js) : j.jid ≤ maxjid js :=
  jid_le_maxjid_foldl js 0 j hj

theorem addjob_success_spec (r : Registry) (pid st : Int) (cmd : String)
    (h : (addjob r pid st cmd).2.1 = true) :
    (addjob r pid st cmd).1.nextjid =
        (if r.nextjid + 1 > (MAXJOBS : Int) then 1 else r.nextjid + 1)
    ∧ ({ pid := pid, jid := r.nextjid, state := st, cmdline := cmd } : Job)
        ∈ (addjob r pid st cmd).1.jobs := by
  unfold addjob at h ⊢
  by_cases hp : pid < 1
  · rw [if_pos hp] at h
    simp at h
  · rw [if_neg hp] at h ⊢
    cases hadd : addSlots pid st r.nextjid cmd r.jobs with
    | none => rw [hadd] at h; simp at h
    | some js =>
      exact ⟨rfl, addSlots_mem_new hadd⟩

theorem deletejob_success_spec (r : Registry) (pid : Int)
    (h : (deletejob r pid).2 = true) :
    (deletejob r pid).1.nextjid = maxjid (deletejob r pid).1.jobs + 1 := by
  unfold deletejob at h ⊢
  by_cases hp : pid < 1
  · rw [if_pos hp] at h
    simp at h
  · rw [if_neg hp] at h ⊢
    cases hdel : deleteSlots pid r.jobs with
    | none => rw [hdel] at h; simp at h
    | some js => rfl

/-- C6: when the jobs table already holds MAXJOBS live entries (every slot
has a nonzero pid), `addjob` with any further launched (hence positive)
pid reports the table-full condition, returns failure, and leaves every
existing entry and the `nextjid` counter unchanged. -/
theorem addjob_table_full (r : Registry) (pid st : Int) (cmd : String)
    (hfull : ∀ j ∈ r.jobs, ¬ j.pid = 0) (hp : 1 ≤ pid) :
    addjob r pid st cmd = (r, false, some ("Tried to create too many jobs")) := by
  unfold addjob
  rw [if_neg (by omega : ¬ pid < 1),
    addSlots_eq_none_of_full pid st r.nextjid cmd r.jobs hfull]

/-- C6 witness: `fillReg` holds 16 live jobs; adding pid 99 reports the
table-full condition and changes nothing. -/
theorem addjob_table_full_witness :
    addjob fillReg 99 BG ("c") = (fillReg, false, some ("Tried to create too many jobs")) :=
  addjob_table_full fillReg 99 BG ("c") (by decide) (by decide)

theorem do_bgfg_cons (r : Registry) (cmd s : String) (c : Char) (cs : List Char)
    (hsd : s.data = c :: cs) :
    do_bgfg r cmd (some s) =
      (if c = '%' then jidBranch r cmd s cs else pidBranch r cmd s (c :: cs)) := by
  show (match s.data with
    | [] => pidBranch r cmd s []
    | c :: cs => if c = '%' then jidBranch r cmd s cs else pidBranch r cmd s (c :: cs)) = _
  rw [hsd]

theorem do_bgfg_nil (r : Registry) (cmd s : String) (hsd : s.data = []) :
    do_bgfg r cmd (some s) = pidBranch r cmd s [] := by
  show (match s.data with
    | [] => pidBranch r cmd s []
    | c :: cs => if c = '%' then jidBranch r cmd s cs else pidBranch r cmd s (c :: cs)) = _
  rw [hsd]

theorem bgfgNumericArg_cons (s : String) (c : Char) (cs : List Char)
    (hsd : s.data = c :: cs) :
    bgfgNumericArg s =
      (if c = '%' then cs.all Char.isDigit else (c :: cs).all Char.isDigit) := by
  show (match s.data with
    | [] => ([] : List Char).all Char.isDigit
    | c :: cs => if c = '%' then cs.all Char.isDigit else (c :: cs).all Char.isDigit) = _
  rw [hsd]

theorem bgfgNumericArg_nil (s : String) (hsd : s.data = []) :
    bgfgNumericArg s = true := by
  show (match s.data with
    | [] => ([] : List Char).all Char.isDigit
    | c :: cs => if c = '%' then cs.all Char.isDigit else (c :: cs).all Char.isDigit) = _
  rw [hsd]
  rfl

/-- C7: for every bg/fg invocation whose argument fails the code's
purely-numeric check (a raw pid or a %-prefixed job id consisting only of
digits), `do_bgfg` prints the usage error and returns with the registry
untouched and no signal, terminal-ownership, or wait effect. -/
theorem bgfg_invalid_arg (r : Registry) (cmd s : String)
    (h : bgfgNumericArg s = false) :
    do_bgfg r cmd (some s) =
      (r, [Effect.msg (cmd ++ (": argument must be a PID or %jobid"))]) := by
  cases hsd : s.data with
  | nil => rw [bgfgNumericArg_nil s hsd] at h; simp at h
  | cons c cs =>
    rw [bgfgNumericArg_cons s c cs hsd] at h
    rw [do_bgfg_cons r cmd s c cs hsd]
    by_cases hc : c = '%'
    · rw [if_pos hc] at h
      rw [if_pos hc]
      unfold jidBranch
      rw [if_neg (by simp [h] : ¬ cs.all Char.isDigit = true)]
    · rw [if_neg hc] at h
      rw [if_neg hc]
      unfold pidBranch
      rw [if_neg (by simp [h] : ¬ (c :: cs).all Char.isDigit = true)]

/-- C7 witness: `fg abc` is rejected with the usage error and no other
behavior. -/
theorem bgfg_invalid_arg_witness :
    do_bgfg initRegistry ("fg") (some ("abc")) =
      (initRegistry, [Effect.msg (("fg") ++ (": argument must be a PID or %jobid"))]) :=
  bgfg_invalid_arg initRegistry ("fg") ("abc") (by decide)

/-- C8: a bg/fg invocation naming a %-prefixed all-digit job id with no
live job reports "No such job" and performs no state mutation and no
other effect: the registry is returned exactly as it was. -/
theorem bgfg_no_such_job (r : Registry) (cmd s : String) (digits : List Char)
    (hsd : s.data = '%' :: digits)
    (hdig : digits.all Char.isDigit = true)
    (hjob : getjobjid r.jobs (atoiL digits) = none) :
    do_bgfg r cmd (some s) = (r, [Effect.msg (s ++ (": No such job"))]) := by
  rw [do_bgfg_cons r cmd s ('%') digits hsd, if_pos rfl]
  unfold jidBranch
  rw [if_pos hdig, hjob]

/-- C8 witness: `fg %99` on the empty registry reports "%99: No such job"
and leaves the registry untouched. -/
theorem bgfg_no_such_job_witness :
    do_bgfg initRegistry ("fg") (some ("%99")) =
      (initRegistry, [Effect.msg (("%99") ++ (": No such job"))]) :=
  bgfg_no_such_job initRegistry ("fg") ("%99") (['9', '9'])
    (by decide) (by decide) (by decide)

/-- C2 counterexample: in the reachable registry `wrapReg` (launch pids
1..16, delete pids 2 and 3, launch pid 17), `nextjid = 1` while the live
job with pid 17 holds jid 17; the next successful `addjob` assigns jid 1,
which is NOT strictly greater than every live job id. -/
theorem nextjid_not_greater_cex :
    wrapReg.nextjid = 1
    ∧ getjobpid wrapReg.jobs 17 =
        some { pid := 17, jid := 17, state := BG, cmdline := ("cmd") }
    ∧ wrapReg.nextjid < 17
    ∧ (addjob wrapReg 18 BG ("cmd")).2.1 = true
    ∧ getjobpid (addjob wrapReg 18 BG ("cmd")).1.jobs 18 =
        some { pid := 18, jid := 1, state := BG, cmdline := ("cmd") }
    ∧ getjobpid (addjob wrapReg 18 BG ("cmd")).1.jobs 17 =
        some { pid := 17, jid := 17, state := BG, cmdline := ("cmd") } := by
  refine ⟨by decide, by decide, by decide, by decide, by decide, by decide⟩

/-- C2 (amended): after every successful `deletejob` the counter is
recomputed as the maximum live job id plus one, hence strictly greater
than every job id in the table; a successful `addjob` assigns the current
counter value as the new job's jid and advances the counter by one,
wrapping to 1 when it would exceed MAXJOBS — so the assigned jid is not in
general greater than every live jid. -/
theorem nextjid_policy :
    (∀ (r : Registry) (pid : Int), (deletejob r pid).2 = true →
      (deletejob r pid).1.nextjid = maxjid (deletejob r pid).1.jobs + 1
      ∧ ∀ j ∈ (deletejob r pid).1.jobs, j.jid < (deletejob r pid).1.nextjid)
    ∧ (∀ (r : Registry) (pid st : Int) (cmd : String), (addjob r pid st cmd).2.1 = true →
      ({ pid := pid, jid := r.nextjid, state := st, cmdline := cmd } : Job)
          ∈ (addjob r pid st cmd).1.jobs
      ∧ (addjob r pid st cmd).1.nextjid =
          (if r.nextjid + 1 > (MAXJOBS : Int) then 1 else r.nextjid + 1)) := by
  constructor
  · intro r pid h
    have h1 := deletejob_success_spec r pid h
    refine ⟨h1, fun j hj => ?_⟩
    have h2 := jid_le_maxjid hj
    omega
  · intro r pid st cmd h
    have h1 := addjob_success_spec r pid st cmd h
    exact ⟨h1.2, h1.1⟩

/-- C2 witness: the delete clause at a one-job registry, and the add
clause at the empty registry. -/
theorem nextjid_policy_witness :
    ((deletejob (addjob initRegistry 5 BG ("c")).1 5).1.nextjid =
        maxjid (deletejob (addjob initRegistry 5 BG ("c")).1 5).1.jobs + 1
      ∧ ∀ j ∈ (deletejob (addjob initRegistry 5 BG ("c")).1 5).1.jobs,
          j.jid < (deletejob (addjob initRegistry 5 BG ("c")).1 5).1.nextjid)
    ∧ (({ pid := 7, jid := initRegistry.nextjid, state := BG, cmdline := ("c") } : Job)
          ∈ (addjob initRegistry 7 BG ("c")).1.jobs
      ∧ (addjob initRegistry 7 BG ("c")).1.nextjid =
          (if initRegistry.nextjid + 1 > (MAXJOBS : Int) then 1
           else initRegistry.nextjid + 1)) :=
  ⟨nextjid_policy.1 (addjob initRegistry 5 BG ("c")).1 5 (by decide),
   nextjid_policy.2 initRegistry 7 BG ("c") (by decide)⟩

/-- C3 (code bug): the reachable trace behind `dupReg` (launch pids 1..16,
delete pids 2 and 3, launch pid 17 — wrapping `nextjid` to 1 — then launch
pid 18, all pids fresh and positive) leaves TWO live jobs with jid 1:
pid 1 and pid 18.  The jid-uniqueness invariant the spec states is
violated by the `nextjid` wrap in `addjob`. -/
theorem duplicate_jid_bug :
    (dupReg.jobs.filter (fun j => j.pid != 0 && j.jid == 1)).length = 2
    ∧ getjobpid dupReg.jobs 1 =
        some { pid := 1, jid := 1, state := BG, cmdline := ("cmd") }
    ∧ getjobpid dupReg.jobs 18 =
        some { pid := 18, jid := 1, state := BG, cmdline := ("cmd") } := by
  refine ⟨by decide, by decide, by decide⟩

/-- C10 counterexample: deleting pid 1 from the reachable registry
`dupReg` recomputes `nextjid = maxjid + 1 = 18`, which exceeds
MAXJOBS + 1 = 17. -/
theorem nextjid_exceeds_bound_cex :
    (deletejob dupReg 1).2 = true
    ∧ postDelReg.nextjid = 18
    ∧ (MAXJOBS : Int) + 1 < postDelReg.nextjid := by
  refine ⟨by decide, by decide, by decide⟩

/-- C10 (amended): after a successful `addjob` from a state with positive
`nextjid` the counter lies in [1, MAXJOBS]; after a successful `deletejob`
it equals the maximum live jid plus one and is at least 1 — but it is not
bounded by MAXJOBS + 1 in general, because live jids can exceed MAXJOBS
after the counter wraps. -/
theorem nextjid_range :
    (∀ (r : Registry) (pid st : Int) (cmd : String), 1 ≤ r.nextjid →
      (addjob r pid st cmd).2.1 = true →
      1 ≤ (addjob r pid st cmd).1.nextjid
      ∧ (addjob r pid st cmd).1.nextjid ≤ (MAXJOBS : Int))
    ∧ (∀ (r : Registry) (pid : Int), (deletejob r pid).2 = true →
      1 ≤ (deletejob r pid).1.nextjid
      ∧ (deletejob r pid).1.nextjid = maxjid (deletejob r pid).1.jobs + 1) := by
  constructor
  · intro r pid st cmd hpos h
    have hn := (addjob_success_spec r pid st cmd h).1
    have hM : (MAXJOBS : Int) = 16 := by decide
    rw [hn, hM]
    split_ifs with hw
    · exact ⟨by omega, by omega⟩
    · exact ⟨by omega, by omega⟩
  · intro r pid h
    have h1 := deletejob_success_spec r pid h
    have h2 := maxjid_nonneg (deletejob r pid).1.jobs
    exact ⟨by omega, h1⟩

/-- C10 witness: the add clause at the empty registry, the delete clause
at the full registry. -/
theorem nextjid_range_witness :
    (1 ≤ (addjob initRegistry 9 BG ("c")).1.nextjid
      ∧ (addjob initRegistry 9 BG ("c")).1.nextjid ≤ (MAXJOBS : Int))
    ∧ (1 ≤ (deletejob fillReg 4).1.nextjid
      ∧ (deletejob fillReg 4).1.nextjid = maxjid (deletejob fillReg 4).1.jobs + 1) :=
  ⟨nextjid_range.1 initRegistry 9 BG ("c") (by decide) (by decide),
   nextjid_range.2 fillReg 4 (by decide)⟩

theorem sigchld_handler_reg (e : Int) (evs : List (Int × ChildEvent)) :
    ∀ (r : Registry) (en : WaitEnd),
    (sigchld_handler e r evs en).reg =
      evs.foldl (fun acc pe => (chldStep acc pe.1 pe.2).1) r := by
  induction evs with
  | nil =>
    intro r en
    cases en with
    | noneReady => rfl
    | failed ec =>
      show (if ec = ECHILD then _ else _ : HandlerResult).reg = _
      split_ifs <;> rfl
  | cons pe rest ih =>
    intro r en
    obtain ⟨pid, ev⟩ := pe
    rw [List.foldl_cons]
    exact ih (chldStep r pid ev).1 en

theorem sigchld_handler_fatal (e : Int) (evs : List (Int × ChildEvent)) :
    ∀ (r : Registry) (en : WaitEnd),
    (sigchld_handler e r evs en).fatal =
      (match en with
       | WaitEnd.noneReady => false
       | WaitEnd.failed ec => decide (¬ ec = ECHILD)) := by
  induction evs with
  | nil =>
    intro r en
    cases en with
    | noneReady => rfl
    | failed ec =>
      show (if ec = ECHILD then _ else _ : HandlerResult).fatal = _
      by_cases hec : ec = ECHILD
      · rw [if_pos hec]
        simp [hec]
      · rw [if_neg hec]
        simp [hec]
  | cons pe rest ih =>
    intro r en
    obtain ⟨pid, ev⟩ := pe
    exact ih (chldStep r pid ev).1 en

theorem sigchld_handler_errno (e : Int) (evs : List (Int × ChildEvent)) :
    ∀ (r : Registry) (en : WaitEnd),
    (sigchld_handler e r evs en).fatal = false →
    (sigchld_handler e r evs en).errno = e := by
  induction evs with
  | nil =>
    intro r en
    cases en with
    | noneReady => intro _; rfl
    | failed ec =>
      show (if ec = ECHILD then _ else _ : HandlerResult).fatal = false →
        (if ec = ECHILD then _ else _ : HandlerResult).errno = e
      by_cases hec : ec = ECHILD
      · rw [if_pos hec]
        intro _
        rfl
      · rw [if_neg hec]
        intro hfalse
        cases hfalse
  | cons pe rest ih =>
    intro r en
    obtain ⟨pid, ev⟩ := pe
    exact ih (chldStep r pid ev).1 en

/-- C4: the child-state-change reaction drains every available
notification in order (the final registry is the in-order fold of the
per-pid reactions over all of them, never just the first), and per pid it
performs exactly one of the three actions: stopped updates that job's
state to ST and prints the stop notice, terminated-by-signal removes the
job and prints the termination notice, normal exit removes the job
silently.  The drain loop never blocks (it is a total function of the
available notifications), ends normally on return 0 or on ECHILD, and any
other waitpid failure is fatal. -/
theorem sigchld_drains_all (e : Int) (r : Registry)
    (evs : List (Int × ChildEvent)) (en : WaitEnd) :
    (sigchld_handler e r evs en).reg =
        evs.foldl (fun acc pe => (chldStep acc pe.1 pe.2).1) r
    ∧ (sigchld_handler e r evs en).fatal =
        (match en with
         | WaitEnd.noneReady => false
         | WaitEnd.failed ec => decide (¬ ec = ECHILD))
    ∧ (∀ (acc : Registry) (pid sg : Int),
        chldStep acc pid (ChildEvent.stopped sg) =
          ({ acc with jobs := setStateByPid pid ST acc.jobs },
           [Effect.msg (stopNotice acc.jobs pid sg)]))
    ∧ (∀ (acc : Registry) (pid sg : Int),
        chldStep acc pid (ChildEvent.signaled sg) =
          ((deletejob acc pid).1, [Effect.msg (termNotice acc.jobs pid sg)]))
    ∧ (∀ (acc : Registry) (pid c : Int),
        chldStep acc pid (ChildEvent.exited c) = ((deletejob acc pid).1, [])) :=
  ⟨sigchld_handler_reg e evs r en, sigchld_handler_fatal e evs r en,
   fun _ _ _ => rfl, fun _ _ _ => rfl, fun _ _ _ => rfl⟩

theorem fwdSignal_errno (r : Registry) (e sg : Int) (k : Option Int)
    (h : (fwdSignal r e sg k).fatal = false) : (fwdSignal r e sg k).errno = e := by
  by_cases hp : fgpid r.jobs = 0
  · simp [fwdSignal, hp]
  · cases k with
    | none => simp [fwdSignal, hp]
    | some ec =>
      by_cases hec : ec = ESRCH
      · simp [fwdSignal, hp, hec]
      · simp [fwdSignal, hp, hec] at h

/-- C9: each of the three asynchronous reactions preserves the ambient
error state: whenever the handler returns (does not take a fatal exit
path), the `errno` it leaves behind equals the `errno` it found at entry,
whatever its own OS calls (waitpid results, kill failures) did to `errno`
in between. -/
theorem handlers_preserve_errno :
    (∀ (r : Registry) (e : Int) (evs : List (Int × ChildEvent)) (en : WaitEnd),
      (sigchld_handler e r evs en).fatal = false →
      (sigchld_handler e r evs en).errno = e)
    ∧ (∀ (r : Registry) (e : Int) (k : Option Int),
      (sigint_handler r e k).fatal = false → (sigint_handler r e k).errno = e)
    ∧ (∀ (r : Registry) (e : Int) (k : Option Int),
      (sigtstp_handler r e k).fatal = false → (sigtstp_handler r e k).errno = e) :=
  ⟨fun r e evs en h => sigchld_handler_errno e evs r en h,
   fun r e k h => fwdSignal_errno r e SIGINT k h,
   fun r e k h => fwdSignal_errno r e SIGTSTP k h⟩

/-- C9 witness: entry errno values 7, 5 and 3 survive a non-fatal run of
each of the three handlers. -/
theorem handlers_preserve_errno_witness :
    (sigchld_handler 7 initRegistry [] WaitEnd.noneReady).errno = 7
    ∧ (sigint_handler initRegistry 5 none).errno = 5
    ∧ (sigtstp_handler initRegistry 3 none).errno = 3 :=
  ⟨handlers_preserve_errno.1 initRegistry 7 [] WaitEnd.noneReady (by decide),
   handlers_preserve_errno.2.1 initRegistry 5 none (by decide),
   handlers_preserve_errno.2.2 initRegistry 3 none (by decide)⟩

/-- C5: `waitfg(pid)` returns exactly when the registry stops reporting
pid as the foreground job.  Against any trace of SIGCHLD deliveries:
(a) whenever it returns, the registry no longer reports pid as foreground;
(b) if the registry does not report pid as foreground at the check, it
returns at once without consuming any delivery; (c) while pid is still
foreground, one suspension consumes exactly one delivery and re-checks —
deliveries are consumed only inside the atomic check-and-suspend, so none
is lost; (d) it stays blocked for the whole trace if and only if every
prefix of deliveries leaves pid as the foreground job. -/
theorem waitfg_blocks_iff (pid : Int) (evs : List (Registry → Registry)) (r : Registry) :
    (∀ r', waitfgRun pid evs r = some r' → ¬ fgpid r'.jobs = pid)
    ∧ (¬ fgpid r.jobs = pid → waitfgRun pid evs r = some r)
    ∧ (∀ (h : Registry → Registry) (rest : List (Registry → Registry)),
        fgpid r.jobs = pid →
        waitfgRun pid (h :: rest) r = waitfgRun pid rest (h r))
    ∧ (waitfgRun pid evs r = none ↔
        ∀ k : Nat, fgpid (applyEvents (evs.take k) r).jobs = pid) := by
  refine ⟨?_, ?_, ?_, ?_⟩
  · induction evs generalizing r with
    | nil =>
      intro r' hr'
      unfold waitfgRun at hr'
      by_cases hp : fgpid r.jobs = pid
      · rw [if_pos hp] at hr'
        cases hr'
      · rw [if_neg hp] at hr'
        injection hr' with hr'
        subst hr'
        exact hp
    | cons hd tl ih =>
      intro r' hr'
      unfold waitfgRun at hr'
      by_cases hp : fgpid r.jobs = pid
      · rw [if_pos hp] at hr'
        exact ih (hd r) r' hr'
      · rw [if_neg hp] at hr'
        injection hr' with hr'
        subst hr'
        exact hp
  · intro hnp
    cases evs with
    | nil =>
      unfold waitfgRun
      rw [if_neg hnp]
    | cons hd tl =>
      unfold waitfgRun
      rw [if_neg hnp]
  · intro hd rest hp
    conv_lhs => rw [waitfgRun]
    rw [if_pos hp]
  · induction evs generalizing r with
    | nil =>
      unfold waitfgRun
      by_cases hp : fgpid r.jobs = pid
      · rw [if_pos hp]
        constructor
        · intro _ k
          simpa [applyEvents] using hp
        · intro _
          rfl
      · rw [if_neg hp]
        constructor
        · intro hsome
          cases hsome
        · intro hall
          exact absurd (by simpa [applyEvents] using hall 0) hp
    | cons hd tl ih =>
      unfold waitfgRun
      by_cases hp : fgpid r.jobs = pid
      · rw [if_pos hp, ih (hd r)]
        constructor
        · intro hall k
          cases k with
          | zero => simpa [applyEvents] using hp
          | succ k => simpa [List.take_succ_cons, applyEvents] using hall k
        · intro hall k
          simpa [List.take_succ_cons, applyEvents] using hall (k + 1)
      · rw [if_neg hp]
        constructor
        · intro hsome
          cases hsome
        · intro hall
          exact absurd (by simpa [applyEvents] using hall 0) hp

/-- C5 witness: on the empty registry, which reports no foreground job,
`waitfg 5` returns at once with the registry untouched, and its result
indeed no longer reports 5 as foreground. -/
theorem waitfg_blocks_iff_witness :
    waitfgRun 5 [] initRegistry = some initRegistry
    ∧ ¬ fgpid initRegistry.jobs = 5 :=
  ⟨(waitfg_blocks_iff 5 [] initRegistry).2.1 (by decide),
   (waitfg_blocks_iff 5 [] initRegistry).1 initRegistry (by decide)⟩

theorem getjobjid_spec {js : List Job} {jid : Int} {job : Job}
    (h : getjobjid js jid = some job) :
    lookupJid jid js = some job ∧ job.jid = jid := by
  unfold getjobjid at h
  by_cases hj : jid < 1
  · rw [if_pos hj] at h
    cases h
  · rw [if_neg hj] at h
    exact ⟨h, (lookupJid_spec h).2⟩

theorem getjobpid_spec {js : List Job} {pid : Int} {job : Job}
    (h : getjobpid js pid = some job) :
    lookupPid pid js = some job ∧ job.pid = pid := by
  unfold getjobpid at h
  by_cases hj : pid < 1
  · rw [if_pos hj] at h
    cases h
  · rw [if_neg hj] at h
    exact ⟨h, (lookupPid_spec h).2⟩

theorem bgfgMode_msg_eq (m : String) : bgfgMode [Effect.msg m] = Mode.prompt := rfl

theorem bgfgMode_fg_eq (pid : Int) :
    bgfgMode [Effect.signal pid SIGCONT, Effect.tcset pid, Effect.waitOn pid,
      Effect.tcsetShell] = Mode.waiting pid := rfl

theorem bgfgMode_bg_eq (pid : Int) (m : String) :
    bgfgMode [Effect.signal pid SIGCONT, Effect.msg m] = Mode.prompt := rfl

theorem noop_triple (r : Registry) (m : String) (h0 : fgCount r.jobs = 0) :
    fgCount (r, [Effect.msg m]).1.jobs ≤ 1
    ∧ (bgfgMode (r, [Effect.msg m]).2 = Mode.prompt →
        fgCount (r, [Effect.msg m]).1.jobs = 0)
    ∧ (∀ p, bgfgMode (r, [Effect.msg m]).2 = Mode.waiting p →
        ∀ j ∈ (r, [Effect.msg m]).1.jobs, j.state = FG → j.pid = p) := by
  refine ⟨?_, fun _ => ?_, fun p hp => ?_⟩
  · show fgCount r.jobs ≤ 1
    omega
  · exact h0
  · rw [bgfgMode_msg_eq] at hp
    exact Mode.noConfusion hp

theorem bgfgPerformJid_preserves (r : Registry) (cmd : String) (job : Job)
    (hl : lookupJid job.jid r.jobs = some job) (h0 : fgCount r.jobs = 0) :
    fgCount (bgfgPerformJid r cmd job).1.jobs ≤ 1
    ∧ (bgfgMode (bgfgPerformJid r cmd job).2 = Mode.prompt →
        fgCount (bgfgPerformJid r cmd job).1.jobs = 0)
    ∧ (∀ p, bgfgMode (bgfgPerformJid r cmd job).2 = Mode.waiting p →
        ∀ j ∈ (bgfgPerformJid r cmd job).1.jobs, j.state = FG → j.pid = p) := by
  unfold bgfgPerformJid bgfgEffects
  cases hfg : (cmd == "fg") with
  | true =>
    rw [if_pos rfl, if_pos rfl]
    refine ⟨?_, fun hp => ?_, fun p hp j hj hjf => ?_⟩
    · show fgCount (setStateByJid job.jid FG r.jobs) ≤ 1
      have := fgCount_setStateByJid_le job.jid FG r.jobs
      omega
    · rw [bgfgMode_fg_eq] at hp
      exact Mode.noConfusion hp
    · rw [bgfgMode_fg_eq] at hp
      injection hp with hp
      subst hp
      rcases mem_setStateByJid_of_lookup hl j hj with hmem | rfl
      · exact absurd hjf ((fgCount_eq_zero_iff r.jobs).1 h0 j hmem)
      · rfl
  | false =>
    rw [if_neg (by simp [hfg]), if_neg (by simp [hfg])]
    refine ⟨?_, fun _ => ?_, fun p hp j hj hjf => ?_⟩
    · show fgCount (setStateByJid job.jid BG r.jobs) ≤ 1
      have := @fgCount_setStateByJid_of_ne job.jid BG (by decide : ¬ BG = FG) r.jobs
      omega
    · show fgCount (setStateByJid job.jid BG r.jobs) = 0
      have := @fgCount_setStateByJid_of_ne job.jid BG (by decide : ¬ BG = FG) r.jobs
      omega
    · rw [bgfgMode_bg_eq] at hp
      exact Mode.noConfusion hp

theorem bgfgPerformPid_preserves (r : Registry) (cmd : String) (job : Job)
    (hl : lookupPid job.pid r.jobs = some job) (h0 : fgCount r.jobs = 0) :
    fgCount (bgfgPerformPid r cmd job).1.jobs ≤ 1
    ∧ (bgfgMode (bgfgPerformPid r cmd job).2 = Mode.prompt →
        fgCount (bgfgPerformPid r cmd job).1.jobs = 0)
    ∧ (∀ p, bgfgMode (bgfgPerformPid r cmd job).2 = Mode.waiting p →
        ∀ j ∈ (bgfgPerformPid r cmd job).1.jobs, j.state = FG → j.pid = p) := by
  unfold bgfgPerformPid bgfgEffects
  cases hfg : (cmd == "fg") with
  | true =>
    rw [if_pos rfl, if_pos rfl]
    refine ⟨?_, fun hp => ?_, fun p hp j hj hjf => ?_⟩
    · show fgCount (setStateByPid job.pid FG r.jobs) ≤ 1
      have := fgCount_setStateByPid_le job.pid FG r.jobs
      omega
    · rw [bgfgMode_fg_eq] at hp
      exact Mode.noConfusion hp
    · rw [bgfgMode_fg_eq] at hp
      injection hp with hp
      subst hp
      rcases mem_setStateByPid_of_lookup hl j hj with hmem | rfl
      · exact absurd hjf ((fgCount_eq_zero_iff r.jobs).1 h0 j hmem)
      · rfl
  | false =>
    rw [if_neg (by simp [hfg]), if_neg (by simp [hfg])]
    refine ⟨?_, fun _ => ?_, fun p hp j hj hjf => ?_⟩
    · show fgCount (setStateByPid job.pid BG r.jobs) ≤ 1
      have := @fgCount_setStateByPid_of_ne job.pid BG (by decide : ¬ BG = FG) r.jobs
      omega
    · show fgCount (setStateByPid job.pid BG r.jobs) = 0
      have := @fgCount_setStateByPid_of_ne job.pid BG (by decide : ¬ BG = FG) r.jobs
      omega
    · rw [bgfgMode_bg_eq] at hp
      exact Mode.noConfusion hp

theorem jidBranch_preserves (r : Registry) (cmd s : String) (digits : List Char)
    (h0 : fgCount r.jobs = 0) :
    fgCount (jidBranch r cmd s digits).1.jobs ≤ 1
    ∧ (bgfgMode (jidBranch r cmd s digits).2 = Mode.prompt →
        fgCount (jidBranch r cmd s digits).1.jobs = 0)
    ∧ (∀ p, bgfgMode (jidBranch r cmd s digits).2 = Mode.waiting p →
        ∀ j ∈ (jidBranch r cmd s digits).1.jobs, j.state = FG → j.pid = p) := by
  unfold jidBranch
  by_cases hdig : digits.all Char.isDigit = true
  · rw [if_pos hdig]
    cases hjob : getjobjid r.jobs (atoiL digits) with
    | none => exact noop_triple r (s ++ (": No such job")) h0
    | some job =>
      have hspec := getjobjid_spec hjob
      have hl : lookupJid job.jid r.jobs = some job := by
        rw [hspec.2]
        exact hspec.1
      exact bgfgPerformJid_preserves r cmd job hl h0
  · rw [if_neg hdig]
    exact noop_triple r (cmd ++ (": argument must be a PID or %jobid")) h0

theorem pidBranch_preserves (r : Registry) (cmd s : String) (cs : List Char)
    (h0 : fgCount r.jobs = 0) :
    fgCount (pidBranch r cmd s cs).1.jobs ≤ 1
    ∧ (bgfgMode (pidBranch r cmd s cs).2 = Mode.prompt →
        fgCount (pidBranch r cmd s cs).1.jobs = 0)
    ∧ (∀ p, bgfgMode (pidBranch r cmd s cs).2 = Mode.waiting p →
        ∀ j ∈ (pidBranch r cmd s cs).1.jobs, j.state = FG → j.pid = p) := by
  unfold pidBranch
  by_cases hdig : cs.all Char.isDigit = true
  · rw [if_pos hdig]
    cases hjob : getjobpid r.jobs (atoiL cs) with
    | none => exact noop_triple r (("(") ++ s ++ ("): No such process")) h0
    | some job =>
      have hspec := getjobpid_spec hjob
      have hl : lookupPid job.pid r.jobs = some job := by
        rw [hspec.2]
        exact hspec.1
      exact bgfgPerformPid_preserves r cmd job hl h0
  · rw [if_neg hdig]
    exact noop_triple r (cmd ++ (": argument must be a PID or %jobid")) h0

theorem bgfg_preserves (r : Registry) (cmd : String) (arg : Option String)
    (h0 : fgCount r.jobs = 0) :
    fgCount (do_bgfg r cmd arg).1.jobs ≤ 1
    ∧ (bgfgMode (do_bgfg r cmd arg).2 = Mode.prompt →
        fgCount (do_bgfg r cmd arg).1.jobs = 0)
    ∧ (∀ p, bgfgMode (do_bgfg r cmd arg).2 = Mode.waiting p →
        ∀ j ∈ (do_bgfg r cmd arg).1.jobs, j.state = FG → j.pid = p) := by
  cases arg with
  | none =>
    exact noop_triple r (cmd ++ (" command requires PID or %jobid argument")) h0
  | some s =>
    cases hsd : s.data with
    | nil =>
      rw [do_bgfg_nil r cmd s hsd]
      exact pidBranch_preserves r cmd s [] h0
    | cons c cs =>
      rw [do_bgfg_cons r cmd s c cs hsd]
      by_cases hc : c = '%'
      · rw [if_pos hc]
        exact jidBranch_preserves r cmd s cs h0
      · rw [if_neg hc]
        exact pidBranch_preserves r cmd s (c :: cs) h0

theorem fgCount_addjob_of_ne (r : Registry) (pid st : Int) (cmd : String)
    (hst : ¬ st = FG) :
    fgCount (addjob r pid st cmd).1.jobs ≤ fgCount r.jobs := by
  unfold addjob
  by_cases hp : pid < 1
  · rw [if_pos hp]
  · rw [if_neg hp]
    cases hadd : addSlots pid st r.nextjid cmd r.jobs with
    | none => exact Nat.le.refl
    | some js => exact fgCount_addSlots_of_ne hst hadd

theorem addjob_FG_case (r : Registry) (pid : Int) (cmd : String)
    (h0 : fgCount r.jobs = 0) :
    fgCount (addjob r pid FG cmd).1.jobs ≤ 1
    ∧ ∀ j ∈ (addjob r pid FG cmd).1.jobs, j.state = FG → j.pid = pid := by
  unfold addjob
  by_cases hp : pid < 1
  · rw [if_pos hp]
    refine ⟨?_, fun j hj hjf => absurd hjf ((fgCount_eq_zero_iff r.jobs).1 h0 j hj)⟩
    show fgCount r.jobs ≤ 1
    omega
  · rw [if_neg hp]
    cases hadd : addSlots pid FG r.nextjid cmd r.jobs with
    | none =>
      refine ⟨?_, fun j hj hjf => absurd hjf ((fgCount_eq_zero_iff r.jobs).1 h0 j hj)⟩
      show fgCount r.jobs ≤ 1
      omega
    | some js =>
      constructor
      · show fgCount js ≤ 1
        have := fgCount_addSlots_le hadd
        omega
      · intro j hj hjf
        rcases mem_addSlots hadd j hj with hmem | rfl
        · exact absurd hjf ((fgCount_eq_zero_iff r.jobs).1 h0 j hmem)
        · rfl

theorem deletejob_fg_preserves (r : Registry) (pid : Int) :
    fgCount (deletejob r pid).1.jobs ≤ fgCount r.jobs
    ∧ ∀ j ∈ (deletejob r pid).1.jobs, j.state = FG → j ∈ r.jobs := by
  unfold deletejob
  by_cases hp : pid < 1
  · rw [if_pos hp]
    exact ⟨Nat.le.refl, fun j hj _ => hj⟩
  · rw [if_neg hp]
    cases hdel : deleteSlots pid r.jobs with
    | none => exact ⟨Nat.le.refl, fun j hj _ => hj⟩
    | some js =>
      constructor
      · exact fgCount_deleteSlots_le hdel
      · intro j hj hjf
        rcases mem_deleteSlots hdel j hj with hmem | rfl
        · exact hmem
        · exact absurd hjf (by decide)

theorem chldStep_fg_preserves (r : Registry) (pid : Int) (ev : ChildEvent) :
    fgCount (chldStep r pid ev).1.jobs ≤ fgCount r.jobs
    ∧ ∀ j ∈ (chldStep r pid ev).1.jobs, j.state = FG → j ∈ r.jobs := by
  cases ev with
  | stopped sg =>
    constructor
    · show fgCount (setStateByPid pid ST r.jobs) ≤ fgCount r.jobs
      exact fgCount_setStateByPid_of_ne (by decide) r.jobs
    · intro j hj hjf
      rcases mem_setStateByPid j hj with hmem | ⟨y, hy, rfl⟩
      · exact hmem
      · have hst : ¬ ST = FG := by decide
        exact absurd hjf hst
  | signaled sg => exact deletejob_fg_preserves r pid
  | exited c => exact deletejob_fg_preserves r pid

theorem step_preserves_inv {s s' : Shell} (hs : Step s s') (hi : Inv s) : Inv s' := by
  obtain ⟨h1, h2, h3⟩ := hi
  cases hs with
  | launchBG pid cmd hm hp =>
    have hc0 : fgCount s.reg.jobs = 0 := h2 hm
    have hbg := fgCount_addjob_of_ne s.reg pid BG cmd (by decide)
    refine ⟨?_, fun _ => ?_, fun p hp' => ?_⟩
    · show fgCount (addjob s.reg pid BG cmd).1.jobs ≤ 1
      omega
    · show fgCount (addjob s.reg pid BG cmd).1.jobs = 0
      omega
    · simp at hp'
  | launchFG pid cmd hm hp =>
    have hc0 : fgCount s.reg.jobs = 0 := h2 hm
    have hfgc := addjob_FG_case s.reg pid cmd hc0
    refine ⟨hfgc.1, fun hp' => ?_, fun p hp' j hj hjf => ?_⟩
    · simp at hp'
    · simp only [Mode.waiting.injEq] at hp'
      subst hp'
      exact hfgc.2 j hj hjf
  | bgfg cmd arg hm =>
    have hc0 : fgCount s.reg.jobs = 0 := h2 hm
    have hb := bgfg_preserves s.reg cmd arg hc0
    exact ⟨hb.1, hb.2.1, hb.2.2⟩
  | fgDone pid hm hf =>
    refine ⟨h1, fun _ => ?_, fun p hp' => ?_⟩
    · show fgCount s.reg.jobs = 0
      by_contra hne
      rcases fgCount_ne_zero_exists s.reg.jobs hne with ⟨j, hj, hjf⟩
      have hpid := h3 pid hm j hj hjf
      have hfg := fgpid_eq_of_mem s.reg.jobs h1 j hj hjf
      exact hf (by rw [hfg, hpid])
    · simp at hp'
  | chld pid ev =>
    have hc := chldStep_fg_preserves s.reg pid ev
    refine ⟨?_, fun hpm => ?_, fun p hpw j hj hjf => ?_⟩
    · show fgCount (chldStep s.reg pid ev).1.jobs ≤ 1
      have := hc.1
      omega
    · show fgCount (chldStep s.reg pid ev).1.jobs = 0
      have h0 := h2 (by simpa using hpm)
      have := hc.1
      omega
    · have hj' := hc.2 j hj hjf
      exact h3 p (by simpa using hpw) j hj' hjf

theorem inv_init : Inv initShell := by
  refine ⟨?_, fun _ => ?_, fun p hp' => ?_⟩
  · show fgCount initRegistry.jobs ≤ 1
    decide
  · show fgCount initRegistry.jobs = 0
    decide
  · simp [initShell] at hp'

theorem inv_reachable {s : Shell} (h : Reachable s) : Inv s := by
  induction h with
  | init => exact inv_init
  | step hr hs ih => exact step_preserves_inv hs ih

/-- C1: in every reachable shell state at most one entry of the jobs table
is in state FG — every mutating operation (`addjob` on `eval`'s launch
paths, `do_bgfg`'s fg command, and the SIGCHLD reaction) preserves this —
so `fgpid` is well-defined: it returns the pid of the unique foreground
job when one exists and 0 when none does. -/
theorem fg_uniqueness (s : Shell) (h : Reachable s) :
    fgCount s.reg.jobs ≤ 1
    ∧ (∀ j ∈ s.reg.jobs, j.state = FG → fgpid s.reg.jobs = j.pid)
    ∧ ((∀ j ∈ s.reg.jobs, ¬ j.state = FG) → fgpid s.reg.jobs = 0) := by
  have hi := inv_reachable h
  exact ⟨hi.1, fun j hj hjf => fgpid_eq_of_mem s.reg.jobs hi.1 j hj hjf,
    fun hall => fgpid_eq_zero s.reg.jobs hall⟩

/-- C1 witness: the shell state reached by launching a foreground job with
pid 5 from the initial shell satisfies the foreground-uniqueness
conclusion. -/
theorem fg_uniqueness_witness :
    fgCount ((addjob initRegistry 5 FG ("c")).1).jobs ≤ 1
    ∧ (∀ j ∈ ((addjob initRegistry 5 FG ("c")).1).jobs, j.state = FG →
        fgpid ((addjob initRegistry 5 FG ("c")).1).jobs = j.pid)
    ∧ ((∀ j ∈ ((addjob initRegistry 5 FG ("c")).1).jobs, ¬ j.state = FG) →
        fgpid ((addjob initRegistry 5 FG ("c")).1).jobs = 0) :=
  fg_uniqueness { reg := (addjob initRegistry 5 FG ("c")).1, mode := Mode.waiting 5 }
    (Reachable.step Reachable.init (Step.launchFG initShell 5 ("c") rfl (by decide)))

end Tsh
